import Mathlib

/-!
Verification of the task-scoped scripting runtime
(`SpiffWorkflow/bpmn/PythonScriptEngine.py`).

The Python values the engine manipulates are embedded as the inductive
`Value`; Python `dict`s are association lists (`Bindings`) with Python's
in-place update semantics (`aset`, `aupd`).  The `Box` class (a `dict`
subclass giving both key-style and attribute-style access) is embedded as
the `Value.box` constructor carrying its two stores: the `dict` store and
the instance `__dict__`.  The dynamic `eval`/`exec` steps are opaque and
are passed in as a `run` argument; everything around them (scope assembly,
the overwrite guard, `Box` conversion, error classification and the
traceback scan) is translated statement by statement from the source.
-/

set_option autoImplicit false

/-- A Python value as far as the script engine distinguishes values:
integers and strings stand for all non-container values, `builtin` stands
for the engine-provided modules and classes, `list` is a Python list,
`dict` a plain mapping, and `box` a `Box` instance carrying its `dict`
store and its instance `__dict__` (in that order). -/
inductive Value where
  | int  : Int → Value
  | str  : String → Value
  | builtin : String → Value
  | list : List Value → Value
  | dict : List (String × Value) → Value
  | box  : List (String × Value) → List (String × Value) → Value

/-- A Python mapping with string keys, in insertion order. -/
abbrev Bindings := List (String × Value)

/-- Python `d[k]` (first matching key; keys of real dicts are unique). -/
def alookup : Bindings → String → Option Value
  | [], _ => none
  | (k, v) :: t, j => if k = j then some v else alookup t j

/-- Python `d[k] = v`: overwrite in place if the key exists, else append. -/
def aset : Bindings → String → Value → Bindings
  | [], k, v => [(k, v)]
  | (k', v') :: t, k, v => if k' = k then (k, v) :: t else (k', v') :: aset t k v

/-- Python `del d[k]`. -/
def adel : Bindings → String → Bindings
  | [], _ => []
  | (k', v') :: t, k => if k' = k then t else (k', v') :: adel t k

/-- Python `d.update(other)`: apply each pair of `other` in order. -/
def aupd (d : Bindings) : Bindings → Bindings
  | [] => d
  | (k, v) :: t => aupd (aset d k v) t

/-- Python `dict(pairs)` / `{}` followed by `update(pairs)`. -/
def dictInit (es : Bindings) : Bindings := aupd [] es

/-- The key set of a mapping. -/
def keysF (d : Bindings) : Finset String := (d.map Prod.fst).toFinset

/-- `isinstance(v, dict)`: true for plain dicts and for `Box` (a subclass). -/
def isPyDict : Value → Bool
  | .dict _ => true
  | .box _ _ => true
  | _ => false

/-- `isinstance(v, Box)`. -/
def isBoxV : Value → Bool
  | .box _ _ => true
  | _ => false

/-- `Box.__setitem__`: writes the pair into the `dict` store and into the
instance `__dict__` (`self.__dict__.update({key: value})`). -/
def setItem : Value → String → Value → Value
  | .box s a, k, v => .box (aset s k v) (aset a k v)
  | b, _, _ => b

/-- `Box.__setattr__` delegates to `__setitem__`. -/
def setAttr (b : Value) (k : String) (v : Value) : Value := setItem b k v

/-- `Box.__delitem__`: removes the key from both stores. -/
def delItem : Value → String → Value
  | .box s a, k => .box (adel s k) (adel a k)
  | b, _ => b

/-- `Box.__delattr__` delegates to `__delitem__`. -/
def delAttr (b : Value) (k : String) : Value := delItem b k

/-- `b[k]` on a mapping value (`none` models `KeyError`). -/
def getItem : Value → String → Option Value
  | .box s _, k => alookup s k
  | .dict es, k => alookup es k
  | _, _ => none

/-- `b.k`: ordinary attribute lookup hits the instance `__dict__` first;
when that fails, `Box.__getattr__` falls back to `self[k]` (`none` models
the `AttributeError` it raises). -/
def getField : Value → String → Option Value
  | .box s a, k => (alookup a k).orElse (fun _ => alookup s k)
  | _, _ => none

mutual
/-- The loop of `Box.__init__`:
`self[k] = Box(v) if isinstance(v, dict) else v` over the argument's
items, applied to the state after `super().__init__(arg)`. -/
def boxInitAux : Bindings → Value → Value
  | [], b => b
  | (k, v) :: t, b => boxInitAux t (setItem b k (boxIfDict v))

/-- `Box(v) if isinstance(v, dict) else v`; a `Box` argument is itself a
`dict`, so it is rebuilt from its `dict` store. -/
def boxIfDict : Value → Value
  | .dict es => boxInitAux es (.box (dictInit es) [])
  | .box s _ => boxInitAux s (.box (dictInit s) [])
  | v => v
end

/-- `Box(arg)` for a mapping argument with the given items:
`super().__init__(arg)` fills the `dict` store with the raw items and
leaves `__dict__` empty, then the `__init__` loop re-sets every key. -/
def boxInit (es : Bindings) : Value := boxInitAux es (.box (dictInit es) [])

/-- Values of a mapping after `Box.__init__`'s per-key wrapping. -/
def mapB (es : Bindings) : Bindings := es.map (fun p => (p.1, boxIfDict p.2))

/-- The per-value step of `_evaluate`'s locals loop:
`if isinstance(v, Box): pass elif isinstance(v, dict): v = Box(v)`. -/
def boxVal : Value → Value
  | .box s a => .box s a
  | .dict es => boxInit es
  | v => v

/-- The locals loop of `_evaluate` over all keys. -/
def boxLocals (d : Bindings) : Bindings := d.map (fun p => (p.1, boxVal p.2))

mutual
/-- `PythonScriptEngine.convertToBoxSub`: recurse through list elements;
on a mapping, convert the `dict`-valued entries in place and rebuild the
result as `Box(data)` (for a `Box`, `data.items()` is its `dict` store);
leave anything else unchanged. -/
def convertToBoxSub : Value → Value
  | .list l => .list (convL l)
  | .dict es => boxInit (convE es)
  | .box s _ => boxInit (convE s)
  | v => v

/-- `for x in range(len(data)): data[x] = convertToBoxSub(data[x])`. -/
def convL : List Value → List Value
  | [] => []
  | v :: t => convertToBoxSub v :: convL t

/-- `for x in data.keys(): if isinstance(data[x], dict): data[x] = convertToBoxSub(data[x])`. -/
def convE : Bindings → Bindings
  | [] => []
  | (k, .dict es) :: t => (k, convertToBoxSub (.dict es)) :: convE t
  | (k, .box s a) :: t => (k, convertToBoxSub (.box s a)) :: convE t
  | (k, v) :: t => (k, v) :: convE t
end

/-- `PythonScriptEngine.convertToBox`: convert every top-level value of
`data` in place. -/
def convertToBox (data : Bindings) : Bindings :=
  data.map (fun p => (p.1, convertToBoxSub p.2))

/-- The entry loop of `convertToBoxSub` as a value map: convert exactly
the mapping-valued entries. -/
def convEVal (v : Value) : Value := if isPyDict v then convertToBoxSub v else v

/-- Descent through nested list positions: follow a chain of list
indexings from a value. -/
def descendL : List Nat → Value → Option Value
  | [], v => some v
  | i :: p, .list l =>
    match l[i]? with
    | some w => descendL p w
    | none => none
  | _ :: _, _ => none

/-- A call frame of an exception's traceback: source filename and line
number.  Code compiled from an in-memory script string carries the
filename `<string>`. -/
abbrev Frame := String × Nat

/-- Detail payload of a classified engine error.  `check_for_overwrite`
interpolates the Python set of colliding names into its message; since
the rendering order of a Python set is unspecified, the message is
modelled as carrying that key set itself, while every other detail is a
plain string. -/
inductive Detail where
  | plain : String → Detail
  | shadow : Finset String → Detail

/-- Modelled from the spec: `WorkflowTaskExecException` lives in
`SpiffWorkflow/bpmn/exceptions.py`, which is not part of the sources
under study.  Per the spec's Execution-Error record it carries the
offending task, a human-readable detail, the originating failure when
given, and an optional source line number and source line text. -/
structure WTE where
  task : String
  detail : Detail
  lineNumber : Nat
  errorLine : String
  cause : Option String

/-- A failure escaping `eval`/`exec`: either the core's own classified
error, or any other Python exception with its class name, arguments and
traceback frames. -/
inductive PyExc where
  | wte : WTE → PyExc
  | exc : String → List String → List Frame → PyExc

/-- Whether a detail is the Name-Shadowing message. -/
def Detail.shadowP : Detail → Bool
  | .plain _ => false
  | .shadow _ => true

/-- Whether an optional raised error is a Name-Shadowing error. -/
def shadowO : Option WTE → Bool
  | some w => w.detail.shadowP
  | none => false

/-- Whether a `PyExc` is a Name-Shadowing error. -/
def shadowX : PyExc → Bool
  | .wte w => w.detail.shadowP
  | .exc _ _ _ => false

/-- Whether an evaluation outcome is a Name-Shadowing error. -/
def shadowE : Except WTE Value → Bool
  | .error w => w.detail.shadowP
  | .ok _ => false

/-- Character walk behind `pySplitlines`: emit the accumulated line at
every newline; a trailing fragment is emitted only when non-empty. -/
def pySplitlinesAux : List Char → List Char → List String
  | [], acc => if acc.isEmpty then [] else [String.mk acc.reverse]
  | c :: t, acc =>
    if c = '\n' then String.mk acc.reverse :: pySplitlinesAux t []
    else pySplitlinesAux t (c :: acc)

/-- Python `str.splitlines` restricted to newline separators. -/
def pySplitlines (s : String) : List String := pySplitlinesAux s.data []

/-- `script.splitlines()[n - 1]`. -/
def lineAt (script : String) (n : Nat) : String :=
  (pySplitlines script).getD (n - 1) ""

/-- The traceback scan of `execute`'s generic handler: walk the frames in
order and keep the line number and literal source line of every frame
whose filename is `<string>`, so the last such frame wins; the defaults
are line `0` and the empty string. -/
def locate (script : String) (frames : List Frame) : Nat × String :=
  frames.foldl
    (fun acc f => if f.1 = "<string>" then (f.2, lineAt script f.2) else acc)
    (0, "")

/-- The last traceback frame whose source is the script text (the frame
the spec's Error Locator contract designates). -/
def lastScriptFrame : List Frame → Option Frame
  | [] => none
  | f :: t =>
    match lastScriptFrame t with
    | some g => some g
    | none => if f.1 = "<string>" then some f else none

/-- `detail = err.__class__.__name__` plus, when the failure has
arguments, `":" + err.args[0]`. -/
def excDetail (cls : String) (args : List String) : String :=
  cls ++ (match args with | [] => "" | a :: _ => ":" ++ a)

/-- The set built by `check_for_overwrite`:
`set(my_globals).intersection(data)` unioned with
`set(more_methods).intersection(data)`. -/
def collisions (g ext d : Bindings) : Finset String :=
  (keysF g ∩ keysF d) ∪ (keysF ext ∩ keysF d)

/-- The error raised by `check_for_overwrite`: a
`WorkflowTaskExecException(task, msg)` whose message names the colliding
keys. -/
def shadowWTE (tk : String) (cols : Finset String) : WTE :=
  ⟨tk, .shadow cols, 0, "", none⟩

/-- `PythonScriptEngine.check_for_overwrite`. -/
def checkForOverwrite (tk : String) (g ext d : Bindings) : Option WTE :=
  if (collisions g ext d).Nonempty then some (shadowWTE tk (collisions g ext d)) else none

/-- The error built by `execute`'s generic `except` handler from a
non-classified failure. -/
def execErrWTE (tk script cls : String) (args : List String)
    (frames : List Frame) : WTE :=
  ⟨tk, .plain (excDetail cls args), (locate script frames).1,
    (locate script frames).2, some cls⟩

/-- The outcome of an opaque `exec`: the optionally raised exception and
the state of the locals mapping when `exec` returns or raises. -/
abbrev ExecRun := Bindings → Bindings → Option PyExc × Bindings

/-- `PythonScriptEngine.execute`, with `exec` itself passed in as `run`:
copy the engine globals, run the overwrite guard, convert `data` to
`Box`es in place, merge `data` then `external_methods` into the globals
copy, run the script with the merged globals and `data` as locals;
re-raise a classified failure unchanged and classify any other failure
through the traceback scan.  Returns the raised error, if any, together
with the final state of `data`. -/
def executeModel (tk : String) (g ext data : Bindings) (script : String)
    (run : ExecRun) : Option WTE × Bindings :=
  let myGlobals := g
  match checkForOverwrite tk myGlobals ext data with
  | some w => (some w, data)
  | none =>
    let data1 := convertToBox data
    let g2 := aupd (aupd myGlobals data1) ext
    match run g2 data1 with
    | (none, d2) => (none, d2)
    | (some (.wte w), d2) => (some w, d2)
    | (some (.exc cls args frames), d2) => (some (execErrWTE tk script cls args frames), d2)

/-- The scope assembled by `_evaluate`: locals are the task data with
`dict` values wrapped, globals are a copy of the engine globals updated
with those locals and then with `external_methods`. -/
def evalScope (g d ext : Bindings) : Bindings × Bindings :=
  let lcls := boxLocals (dictInit d)
  (aupd (aupd g lcls) ext, lcls)

/-- Name resolution of code run by `eval`/`exec` with explicit globals
and locals: the locals mapping is consulted first, then the globals. -/
def lookupName (scope : Bindings × Bindings) (n : String) : Option Value :=
  (alookup scope.2 n).orElse (fun _ => alookup scope.1 n)

/-- Python `str(e)` for a raised failure: a classified error renders its
detail, any other exception renders its arguments. -/
def pyStr : PyExc → String
  | .wte w => match w.detail with
      | .plain s => s
      | .shadow ks => String.intercalate ", " (ks.sort (· ≤ ·))
  | .exc _ args _ => String.intercalate ", " args

/-- The wrapper raised by `evaluate`'s `except` clause:
`WorkflowTaskExecException(task, "Error evaluating expression ...")`. -/
def evalWrap (tk expr : String) (e : PyExc) : WTE :=
  ⟨tk, .plain ("Error evaluating expression \x27" ++ expr ++ "\x27, " ++ pyStr e), 0, "", none⟩

/-- The outcome of an opaque `eval`: the produced value or the raised
exception. -/
abbrev EvalRun := Bindings → Bindings → Except PyExc Value

/-- `PythonScriptEngine.evaluate` on a textual expression, with `eval`
passed in as `run`: build the `_evaluate` scope from the engine globals
and the task data (no extensions), evaluate, and wrap any failure —
classified or not — in a fresh expression-evaluation error. -/
def evaluateModel (tk : String) (g data : Bindings) (expr : String)
    (run : EvalRun) : Except WTE Value :=
  let scope := evalScope g data []
  match run scope.1 scope.2 with
  | .ok v => .ok v
  | .error e => .error (evalWrap tk expr e)

/-- The engine object: its only state is the `globals` mapping built at
construction. -/
structure Engine where
  globals : Bindings

/-- The base bindings installed by `PythonScriptEngine.__init__`. -/
def baseGlobals : Bindings :=
  [("timedelta", .builtin "timedelta"), ("datetime", .builtin "datetime"),
   ("dateparser", .builtin "dateparser"), ("pytz", .builtin "pytz"),
   ("Box", .builtin "Box")]

/-- `PythonScriptEngine.__init__`: the base globals updated with the
caller's `scripting_additions`. -/
def engineInit (additions : Bindings) : Engine :=
  ⟨aupd baseGlobals additions⟩

/-- `execute` as a method: the body reads `self.globals` through
`copy.copy` and never assigns it, so the engine state after the call is
the field as the method left it. -/
def executeEng (e : Engine) (tk : String) (ext data : Bindings)
    (script : String) (run : ExecRun) : (Option WTE × Bindings) × Engine :=
  (executeModel tk e.globals ext data script run, ⟨e.globals⟩)

/-- `evaluate` as a method: `_evaluate` copies `self.globals` and updates
only the copy. -/
def evaluateEng (e : Engine) (tk : String) (data : Bindings) (expr : String)
    (run : EvalRun) : Except WTE Value × Engine :=
  (evaluateModel tk e.globals data expr run, ⟨e.globals⟩)

theorem alookup_aset (s : Bindings) (k j : String) (v : Value) :
    alookup (aset s k v) j = if j = k then some v else alookup s j := by
  induction s with
  | nil =>
    simp only [aset, alookup]
    by_cases h : k = j
    · subst h; simp
    · have h2 : ¬ j = k := fun h3 => h h3.symm
      simp [h, h2]
  | cons p t ih =>
    obtain ⟨k', v'⟩ := p
    simp only [aset]
    by_cases h1 : k' = k
    · subst h1
      simp only [if_pos rfl, alookup]
      by_cases h2 : j = k'
      · subst h2; simp
      · have h3 : ¬ k' = j := fun h4 => h2 h4.symm
        simp [h2, h3]
    · simp only [if_neg h1, alookup]
      by_cases h2 : k' = j
      · subst h2
        simp [h1]
      · simp [h2, ih]

theorem alookup_eq_none_iff (s : Bindings) (j : String) :
    alookup s j = none ↔ j ∉ s.map Prod.fst := by
  induction s with
  | nil => simp [alookup]
  | cons p t ih =>
    obtain ⟨k, v⟩ := p
    simp only [alookup, List.map_cons, List.mem_cons]
    by_cases h : k = j
    · subst h; simp
    · have h2 : ¬ j = k := fun h3 => h h3.symm
      simp [h, h2, ih]

theorem alookup_aupd_none (ps : Bindings) (s : Bindings) (j : String)
    (h : alookup ps j = none) : alookup (aupd s ps) j = alookup s j := by
  induction ps generalizing s with
  | nil => rfl
  | cons p t ih =>
    obtain ⟨k, v⟩ := p
    simp only [alookup] at h
    by_cases hk : k = j
    · simp [hk] at h
    · rw [if_neg hk] at h
      show alookup (aupd (aset s k v) t) j = alookup s j
      rw [ih _ h, alookup_aset, if_neg (fun h2 => hk h2.symm)]

theorem alookup_aupd_some (ps : Bindings) (s : Bindings) (j : String) (v : Value)
    (hn : (ps.map Prod.fst).Nodup) (h : alookup ps j = some v) :
    alookup (aupd s ps) j = some v := by
  induction ps generalizing s with
  | nil => simp [alookup] at h
  | cons p t ih =>
    obtain ⟨k, w⟩ := p
    simp only [List.map_cons, List.nodup_cons] at hn
    simp only [alookup] at h
    by_cases hk : k = j
    · subst hk
      rw [if_pos rfl] at h
      injection h with h
      subst h
      have hnone : alookup t k = none := (alookup_eq_none_iff t k).mpr hn.1
      show alookup (aupd (aset s k w) t) k = some w
      rw [alookup_aupd_none t _ _ hnone, alookup_aset, if_pos rfl]
    · rw [if_neg hk] at h
      exact ih _ hn.2 h

theorem aupd_cons_of_notmem (ps : Bindings) (s : Bindings) (k : String) (x : Value)
    (h : k ∉ ps.map Prod.fst) : aupd ((k, x) :: s) ps = (k, x) :: aupd s ps := by
  induction ps generalizing s with
  | nil => rfl
  | cons p t ih =>
    obtain ⟨k1, v1⟩ := p
    simp only [List.map_cons, List.mem_cons, not_or] at h
    show aupd (aset ((k, x) :: s) k1 v1) t = (k, x) :: aupd (aset s k1 v1) t
    rw [show aset ((k, x) :: s) k1 v1 = (k, x) :: aset s k1 v1 from by simp [aset, h.1]]
    exact ih _ h.2

theorem dictInit_self (es : Bindings) (hn : (es.map Prod.fst).Nodup) :
    dictInit es = es := by
  induction es with
  | nil => rfl
  | cons p t ih =>
    obtain ⟨k, v⟩ := p
    simp only [List.map_cons, List.nodup_cons] at hn
    show aupd (aset [] k v) t = (k, v) :: t
    rw [show aset [] k v = [(k, v)] from rfl, aupd_cons_of_notmem t [] k v hn.1]
    exact congrArg _ (ih hn.2)

theorem aupd_overwrite_self (es fs : Bindings) (hn : (es.map Prod.fst).Nodup)
    (hk : fs.map Prod.fst = es.map Prod.fst) : aupd es fs = fs := by
  induction es generalizing fs with
  | nil =>
    cases fs with
    | nil => rfl
    | cons q ft => simp at hk
  | cons p t ih =>
    obtain ⟨k, v⟩ := p
    cases fs with
    | nil => simp at hk
    | cons q ft =>
      obtain ⟨k1, fv⟩ := q
      simp only [List.map_cons, List.cons.injEq] at hk
      simp only [List.map_cons, List.nodup_cons] at hn
      obtain ⟨hk1, hkt⟩ := hk
      subst hk1
      show aupd (aset ((k1, v) :: t) k1 fv) ft = (k1, fv) :: ft
      rw [show aset ((k1, v) :: t) k1 fv = (k1, fv) :: t from by simp [aset]]
      have h1 : k1 ∉ ft.map Prod.fst := by rw [hkt]; exact hn.1
      rw [aupd_cons_of_notmem ft t k1 fv h1]
      exact congrArg _ (ih ft hn.2 hkt)

theorem boxInitAux_box (es : Bindings) (s a : Bindings) :
    boxInitAux es (.box s a) = .box (aupd s (mapB es)) (aupd a (mapB es)) := by
  induction es generalizing s a with
  | nil => rfl
  | cons p t ih =>
    obtain ⟨k, v⟩ := p
    show boxInitAux t (setItem (.box s a) k (boxIfDict v)) = _
    rw [show setItem (.box s a) k (boxIfDict v)
          = .box (aset s k (boxIfDict v)) (aset a k (boxIfDict v)) from rfl]
    exact ih _ _

theorem mapB_keys (es : Bindings) : (mapB es).map Prod.fst = es.map Prod.fst := by
  induction es with
  | nil => rfl
  | cons p t ih =>
    show p.1 :: (mapB t).map Prod.fst = p.1 :: t.map Prod.fst
    exact congrArg _ ih

theorem boxInit_char (es : Bindings) (hn : (es.map Prod.fst).Nodup) :
    boxInit es = .box (mapB es) (mapB es) := by
  show boxInitAux es (.box (dictInit es) []) = _
  rw [boxInitAux_box, dictInit_self es hn]
  rw [aupd_overwrite_self es (mapB es) hn (mapB_keys es)]
  have h2 : ((mapB es).map Prod.fst).Nodup := by rw [mapB_keys]; exact hn
  show Value.box _ (dictInit (mapB es)) = _
  rw [dictInit_self _ h2]

theorem alookup_mapVals (f : Value → Value) (es : Bindings) (k : String) :
    alookup (es.map (fun p => (p.1, f p.2))) k = (alookup es k).map f := by
  induction es with
  | nil => rfl
  | cons p t ih =>
    obtain ⟨k1, v⟩ := p
    by_cases h : k1 = k <;> simp [alookup, h, ih]

theorem convL_eq_map (l : List Value) : convL l = l.map convertToBoxSub := by
  induction l with
  | nil => rfl
  | cons v t ih => simp [convL, ih]

theorem convE_eq_map (es : Bindings) :
    convE es = es.map (fun p => (p.1, convEVal p.2)) := by
  induction es with
  | nil => rfl
  | cons p t ih =>
    obtain ⟨k, v⟩ := p
    cases v <;> simp [convE, convEVal, isPyDict, ih]

/-- Member-wise induction principle for `Value`, derived from strong
induction on `sizeOf`. -/
theorem value_ind (P : Value → Prop)
    (hint : ∀ n, P (.int n)) (hstr : ∀ s, P (.str s))
    (hblt : ∀ s, P (.builtin s))
    (hlist : ∀ l, (∀ v ∈ l, P v) → P (.list l))
    (hdict : ∀ es, (∀ p ∈ es, P (Prod.snd p)) → P (.dict es))
    (hbox : ∀ s a, (∀ p ∈ s, P (Prod.snd p)) → (∀ p ∈ a, P (Prod.snd p)) → P (.box s a)) :
    ∀ v, P v := by
  have key : ∀ n v, sizeOf v ≤ n → P v := by
    intro n
    induction n with
    | zero =>
      intro v hv
      cases v <;> simp at hv
    | succ n ih =>
      intro v hv
      cases v with
      | int m => exact hint m
      | str s => exact hstr s
      | builtin s => exact hblt s
      | list l =>
        refine hlist l (fun w hw => ih w ?_)
        have := List.sizeOf_lt_of_mem hw
        simp at hv
        omega
      | dict es =>
        refine hdict es (fun p hp => ih p.2 ?_)
        have h1 := List.sizeOf_lt_of_mem hp
        obtain ⟨k, v⟩ := p
        simp at hv h1 ⊢
        omega
      | box s a =>
        refine hbox s a (fun p hp => ih p.2 ?_) (fun p hp => ih p.2 ?_)
        · have h1 := List.sizeOf_lt_of_mem hp
          obtain ⟨k, v⟩ := p
          simp at hv h1 ⊢
          omega
        · have h1 := List.sizeOf_lt_of_mem hp
          obtain ⟨k, v⟩ := p
          simp at hv h1 ⊢
          omega
  exact fun v => key (sizeOf v) v (Nat.le_refl _)

/-- Key uniqueness of one mapping level, as Python dicts guarantee it. -/
def nodupKeysB : Bindings → Bool
  | [] => true
  | (k, _) :: t => decide (k ∉ t.map Prod.fst) && nodupKeysB t

mutual
/-- Key uniqueness at every mapping level of a value (Python dicts cannot
hold duplicate keys; association lists can, so theorems assume this). -/
def nodupDeepV : Value → Bool
  | .list l => nodupDeepL l
  | .dict es => nodupKeysB es && nodupDeepE es
  | .box s _ => nodupKeysB s && nodupDeepE s
  | _ => true

/-- `nodupDeepV` over list elements. -/
def nodupDeepL : List Value → Bool
  | [] => true
  | v :: t => nodupDeepV v && nodupDeepL t

/-- `nodupDeepV` over mapping values. -/
def nodupDeepE : Bindings → Bool
  | [] => true
  | (_, v) :: t => nodupDeepV v && nodupDeepE t
end

theorem nodupKeysB_iff (es : Bindings) :
    nodupKeysB es = true ↔ (es.map Prod.fst).Nodup := by
  induction es with
  | nil => simp [nodupKeysB]
  | cons p t ih =>
    obtain ⟨k, v⟩ := p
    simp [nodupKeysB, ih]

theorem nodupDeepE_mem (es : Bindings) (h : nodupDeepE es = true) :
    ∀ p ∈ es, nodupDeepV (Prod.snd p) = true := by
  induction es with
  | nil => simp
  | cons p t ih =>
    obtain ⟨k, v⟩ := p
    simp only [nodupDeepE, Bool.and_eq_true] at h
    intro q hq
    rcases List.mem_cons.mp hq with h1 | h1
    · subst h1; exact h.1
    · exact ih h.2 q h1

theorem nodupDeepL_mem (l : List Value) (h : nodupDeepL l = true) :
    ∀ v ∈ l, nodupDeepV v = true := by
  induction l with
  | nil => simp
  | cons v t ih =>
    simp only [nodupDeepL, Bool.and_eq_true] at h
    intro w hw
    rcases List.mem_cons.mp hw with h1 | h1
    · subst h1; exact h.1
    · exact ih h.2 w h1

theorem mapVals_id (f : Value → Value) (es : Bindings)
    (h : ∀ p ∈ es, f (Prod.snd p) = Prod.snd p) :
    es.map (fun p => (p.1, f p.2)) = es := by
  induction es with
  | nil => rfl
  | cons p t ih =>
    obtain ⟨k, v⟩ := p
    simp only [List.map_cons]
    rw [h (k, v) (List.mem_cons_self _ _), ih (fun q hq => h q (List.mem_cons_of_mem _ hq))]

theorem convE_keys (es : Bindings) : (convE es).map Prod.fst = es.map Prod.fst := by
  rw [convE_eq_map]
  induction es with
  | nil => rfl
  | cons p t ih =>
    show p.1 :: _ = p.1 :: _
    exact congrArg _ ih

/-- The `Box` store-consistency invariant: every `Box` reachable inside a
value has its instance `__dict__` literally equal to its `dict` store,
recursively.  Two access styles on such a `Box` can never diverge. -/
inductive Synced : Value → Prop where
  | int (n : Int) : Synced (.int n)
  | str (s : String) : Synced (.str s)
  | builtin (s : String) : Synced (.builtin s)
  | list (l : List Value) : (∀ v ∈ l, Synced v) → Synced (.list l)
  | dict (es : Bindings) : (∀ p ∈ es, Synced (Prod.snd p)) → Synced (.dict es)
  | box (s : Bindings) : (∀ p ∈ s, Synced (Prod.snd p)) → Synced (.box s s)

theorem synced_box_elim (s a : Bindings) (h : Synced (.box s a)) :
    a = s ∧ ∀ p ∈ s, Synced (Prod.snd p) := by
  cases h with
  | box s hv => exact ⟨rfl, hv⟩

theorem synced_dict_elim (es : Bindings) (h : Synced (.dict es)) :
    ∀ p ∈ es, Synced (Prod.snd p) := by
  cases h with
  | dict es hv => exact hv

theorem synced_list_elim (l : List Value) (h : Synced (.list l)) :
    ∀ v ∈ l, Synced v := by
  cases h with
  | list l hv => exact hv

theorem mem_aset (s : Bindings) (k : String) (v : Value) (p : String × Value)
    (h : p ∈ aset s k v) : p = (k, v) ∨ p ∈ s := by
  induction s with
  | nil => simp [aset] at h; exact Or.inl h
  | cons q t ih =>
    obtain ⟨k', v'⟩ := q
    by_cases h1 : k' = k
    · rw [show aset ((k', v') :: t) k v = (k, v) :: t from by simp [aset, h1]] at h
      rcases List.mem_cons.mp h with h2 | h2
      · exact Or.inl h2
      · exact Or.inr (List.mem_cons_of_mem _ h2)
    · rw [show aset ((k', v') :: t) k v = (k', v') :: aset t k v from by simp [aset, h1]] at h
      rcases List.mem_cons.mp h with h2 | h2
      · exact Or.inr (h2 ▸ List.mem_cons_self _ _)
      · rcases ih h2 with h3 | h3
        · exact Or.inl h3
        · exact Or.inr (List.mem_cons_of_mem _ h3)

theorem mem_adel (s : Bindings) (k : String) (p : String × Value)
    (h : p ∈ adel s k) : p ∈ s := by
  induction s with
  | nil => simp [adel] at h
  | cons q t ih =>
    obtain ⟨k', v'⟩ := q
    by_cases h1 : k' = k
    · rw [show adel ((k', v') :: t) k = t from by simp [adel, h1]] at h
      exact List.mem_cons_of_mem _ h
    · rw [show adel ((k', v') :: t) k = (k', v') :: adel t k from by simp [adel, h1]] at h
      rcases List.mem_cons.mp h with h2 | h2
      · exact h2 ▸ List.mem_cons_self _ _
      · exact List.mem_cons_of_mem _ (ih h2)

/-- Wrapping a consistent mapping through `Box.__init__` yields a `Box`
whose two stores are literally equal and whose nested values are again
consistent. -/
theorem synced_boxIfDict : ∀ v, nodupDeepV v = true → Synced v → Synced (boxIfDict v) := by
  intro v
  induction v using value_ind with
  | hint n => intro _ _; exact Synced.int n
  | hstr s => intro _ _; exact Synced.str s
  | hblt s => intro _ _; exact Synced.builtin s
  | hlist l ih => intro _ hs; exact hs
  | hdict es ih =>
    intro hn hs
    simp only [nodupDeepV, Bool.and_eq_true] at hn
    have hchar : boxIfDict (.dict es) = .box (mapB es) (mapB es) := by
      show boxInit es = _
      exact boxInit_char es ((nodupKeysB_iff es).mp hn.1)
    rw [hchar]
    refine Synced.box (mapB es) ?_
    intro p hp
    rcases List.mem_map.mp hp with ⟨q, hq, hq2⟩
    subst hq2
    exact ih q hq (nodupDeepE_mem es hn.2 q hq) (synced_dict_elim es hs q hq)
  | hbox s a ihs iha =>
    intro hn hs
    simp only [nodupDeepV, Bool.and_eq_true] at hn
    have hv := (synced_box_elim s a hs).2
    have hchar : boxIfDict (.box s a) = .box (mapB s) (mapB s) := by
      show boxInitAux s (.box (dictInit s) []) = _
      exact boxInit_char s ((nodupKeysB_iff s).mp hn.1)
    rw [hchar]
    refine Synced.box (mapB s) ?_
    intro p hp
    rcases List.mem_map.mp hp with ⟨q, hq, hq2⟩
    subst hq2
    exact ihs q hq (nodupDeepE_mem s hn.2 q hq) (hv q hq)

theorem boxInit_shape (es : Bindings) : ∃ s a, boxInit es = Value.box s a :=
  ⟨_, _, boxInitAux_box es (dictInit es) []⟩

theorem convE_core (es : Bindings) (hk : nodupKeysB es = true) (he : nodupDeepE es = true)
    (ih : ∀ p ∈ es, nodupDeepV (Prod.snd p) = true →
      convertToBoxSub (convertToBoxSub (Prod.snd p)) = convertToBoxSub (Prod.snd p)
      ∧ boxIfDict (convertToBoxSub (Prod.snd p)) = convertToBoxSub (Prod.snd p)) :
    boxInit (convE es) = .box (convE es) (convE es) ∧ convE (convE es) = convE es := by
  have hstep : ∀ p ∈ convE es,
      boxIfDict (Prod.snd p) = Prod.snd p ∧ convEVal (Prod.snd p) = Prod.snd p := by
    intro p hp
    rw [convE_eq_map] at hp
    rcases List.mem_map.mp hp with ⟨q, hq, rfl⟩
    obtain ⟨k, w⟩ := q
    have hw : nodupDeepV w = true := nodupDeepE_mem es he (k, w) hq
    show boxIfDict (convEVal w) = convEVal w ∧ convEVal (convEVal w) = convEVal w
    cases w with
    | int n => exact ⟨rfl, rfl⟩
    | str s => exact ⟨rfl, rfl⟩
    | builtin s => exact ⟨rfl, rfl⟩
    | list l => exact ⟨rfl, rfl⟩
    | dict es2 =>
      have hih := ih (k, .dict es2) hq hw
      refine ⟨hih.2, ?_⟩
      obtain ⟨bs, ba, hsh⟩ := boxInit_shape (convE es2)
      show convEVal (convertToBoxSub (.dict es2)) = convertToBoxSub (.dict es2)
      rw [show convertToBoxSub (.dict es2) = boxInit (convE es2) from rfl, hsh]
      show convertToBoxSub (.box bs ba) = Value.box bs ba
      rw [← hsh]
      exact hih.1
    | box s2 a2 =>
      have hih := ih (k, .box s2 a2) hq hw
      refine ⟨hih.2, ?_⟩
      obtain ⟨bs, ba, hsh⟩ := boxInit_shape (convE s2)
      show convEVal (convertToBoxSub (.box s2 a2)) = convertToBoxSub (.box s2 a2)
      rw [show convertToBoxSub (.box s2 a2) = boxInit (convE s2) from rfl, hsh]
      show convertToBoxSub (.box bs ba) = Value.box bs ba
      rw [← hsh]
      exact hih.1
  have h2 : mapB (convE es) = convE es :=
    mapVals_id boxIfDict (convE es) (fun p hp => (hstep p hp).1)
  have h3 : convE (convE es) = convE es := by
    rw [convE_eq_map (convE es)]
    exact mapVals_id convEVal (convE es) (fun p hp => (hstep p hp).2)
  have h4 : ((convE es).map Prod.fst).Nodup := by
    rw [convE_keys]; exact (nodupKeysB_iff es).mp hk
  refine ⟨?_, h3⟩
  rw [boxInit_char (convE es) h4]
  rw [h2]

theorem convL_idem_of (l : List Value)
    (h : ∀ v ∈ l, convertToBoxSub (convertToBoxSub v) = convertToBoxSub v) :
    convL (convL l) = convL l := by
  induction l with
  | nil => rfl
  | cons v t ih =>
    show convertToBoxSub (convertToBoxSub v) :: convL (convL t) = convertToBoxSub v :: convL t
    rw [h v (List.mem_cons_self _ _), ih (fun w hw => h w (List.mem_cons_of_mem _ hw))]

/-- `convertToBoxSub` is idempotent (on values whose mappings have unique
keys, as Python dicts do), and its image is invariant under a further
`Box.__init__` wrap. -/
theorem convert_idem_aux : ∀ v, nodupDeepV v = true →
    convertToBoxSub (convertToBoxSub v) = convertToBoxSub v
    ∧ boxIfDict (convertToBoxSub v) = convertToBoxSub v := by
  intro v
  induction v using value_ind with
  | hint n => intro _; exact ⟨rfl, rfl⟩
  | hstr s => intro _; exact ⟨rfl, rfl⟩
  | hblt s => intro _; exact ⟨rfl, rfl⟩
  | hlist l ih =>
    intro hn
    have hn2 : nodupDeepL l = true := hn
    refine ⟨?_, rfl⟩
    show Value.list (convL (convL l)) = Value.list (convL l)
    rw [convL_idem_of l (fun w hw => (ih w hw (nodupDeepL_mem l hn2 w hw)).1)]
  | hdict es ih =>
    intro hn
    simp only [nodupDeepV, Bool.and_eq_true] at hn
    obtain ⟨hbx, hcv⟩ := convE_core es hn.1 hn.2 ih
    have h5 : convertToBoxSub (.dict es) = .box (convE es) (convE es) := hbx
    constructor
    · rw [h5]
      show boxInit (convE (convE es)) = Value.box (convE es) (convE es)
      rw [hcv]
      exact hbx
    · rw [h5]
      show boxInit (convE es) = Value.box (convE es) (convE es)
      exact hbx
  | hbox s a ihs iha =>
    intro hn
    simp only [nodupDeepV, Bool.and_eq_true] at hn
    obtain ⟨hbx, hcv⟩ := convE_core s hn.1 hn.2 ihs
    have h5 : convertToBoxSub (.box s a) = .box (convE s) (convE s) := hbx
    constructor
    · rw [h5]
      show boxInit (convE (convE s)) = Value.box (convE s) (convE s)
      rw [hcv]
      exact hbx
    · rw [h5]
      show boxInit (convE s) = Value.box (convE s) (convE s)
      exact hbx

theorem locate_foldl_char (script : String) (frames : List Frame) :
    ∀ acc : Nat × String,
    frames.foldl (fun acc f => if f.1 = "<string>" then (f.2, lineAt script f.2) else acc) acc
    = match lastScriptFrame frames with
      | none => acc
      | some f => (f.2, lineAt script f.2) := by
  induction frames with
  | nil => intro acc; rfl
  | cons f t ih =>
    intro acc
    show t.foldl _ (if f.1 = "<string>" then (f.2, lineAt script f.2) else acc)
        = match lastScriptFrame (f :: t) with
          | none => acc
          | some g => (g.2, lineAt script g.2)
    cases hl : lastScriptFrame t with
    | some g =>
      rw [show lastScriptFrame (f :: t) = some g from by simp [lastScriptFrame, hl]]
      rw [ih _, hl]
    | none =>
      by_cases hp : f.1 = "<string>"
      · rw [show lastScriptFrame (f :: t) = some f from by simp [lastScriptFrame, hl, hp]]
        rw [if_pos hp, ih _, hl]
      · rw [show lastScriptFrame (f :: t) = none from by simp [lastScriptFrame, hl, hp]]
        rw [if_neg hp, ih _, hl]

theorem locate_char (script : String) (frames : List Frame) :
    locate script frames
    = match lastScriptFrame frames with
      | none => (0, "")
      | some f => (f.2, lineAt script f.2) :=
  locate_foldl_char script frames (0, "")

theorem alookup_dictInit_none (d : Bindings) (k : String) (h : alookup d k = none) :
    alookup (dictInit d) k = none := by
  show alookup (aupd [] d) k = none
  rw [alookup_aupd_none d [] k h]
  rfl

theorem lookupName_locals_some (g d ext : Bindings) (k : String) (v : Value)
    (hn : (d.map Prod.fst).Nodup) (h : alookup d k = some v) :
    lookupName (evalScope g d ext) k = some (boxVal v) := by
  show (alookup (boxLocals (dictInit d)) k).orElse _ = _
  rw [dictInit_self d hn]
  simp only [boxLocals]
  rw [alookup_mapVals boxVal d k, h]
  rfl

theorem lookupName_locals_none (g d ext : Bindings) (k : String)
    (h : alookup d k = none) :
    lookupName (evalScope g d ext) k = alookup (aupd (aupd g (boxLocals (dictInit d))) ext) k := by
  have h2 : alookup (boxLocals (dictInit d)) k = none := by
    simp only [boxLocals]
    rw [alookup_mapVals boxVal (dictInit d) k, alookup_dictInit_none d k h]
    rfl
  show (alookup (boxLocals (dictInit d)) k).orElse _ = _
  rw [h2]
  rfl

theorem lookupName_ext_some (g d ext : Bindings) (k : String) (v : Value)
    (hd : alookup d k = none) (hne : (ext.map Prod.fst).Nodup)
    (h : alookup ext k = some v) :
    lookupName (evalScope g d ext) k = some v := by
  rw [lookupName_locals_none g d ext k hd]
  exact alookup_aupd_some ext _ k v hne h

theorem lookupName_engine (g d ext : Bindings) (k : String)
    (hd : alookup d k = none) (he : alookup ext k = none) :
    lookupName (evalScope g d ext) k = alookup g k := by
  rw [lookupName_locals_none g d ext k hd]
  rw [alookup_aupd_none ext _ k he]
  have h2 : alookup (boxLocals (dictInit d)) k = none := by
    simp only [boxLocals]
    rw [alookup_mapVals boxVal (dictInit d) k, alookup_dictInit_none d k hd]
    rfl
  rw [alookup_aupd_none _ _ k h2]

theorem lookupName_exec_data (g d ext : Bindings) (k : String) (v : Value)
    (h : alookup d k = some v) :
    lookupName (aupd (aupd g (convertToBox d)) ext, convertToBox d) k
      = some (convertToBoxSub v) := by
  show (alookup (convertToBox d) k).orElse _ = _
  simp only [convertToBox]
  rw [alookup_mapVals convertToBoxSub d k, h]
  rfl

theorem lookupName_exec_locals_none (g d ext : Bindings) (k : String)
    (hd : alookup d k = none) :
    lookupName (aupd (aupd g (convertToBox d)) ext, convertToBox d) k
      = alookup (aupd (aupd g (convertToBox d)) ext) k := by
  have h2 : alookup (convertToBox d) k = none := by
    simp only [convertToBox]
    rw [alookup_mapVals convertToBoxSub d k, hd]
    rfl
  show (alookup (convertToBox d) k).orElse _ = _
  rw [h2]
  rfl

theorem lookupName_exec_ext_some (g d ext : Bindings) (k : String) (v : Value)
    (hd : alookup d k = none) (hne : (ext.map Prod.fst).Nodup)
    (h : alookup ext k = some v) :
    lookupName (aupd (aupd g (convertToBox d)) ext, convertToBox d) k = some v := by
  rw [lookupName_exec_locals_none g d ext k hd]
  exact alookup_aupd_some ext _ k v hne h

theorem lookupName_exec_engine (g d ext : Bindings) (k : String)
    (hd : alookup d k = none) (he : alookup ext k = none) :
    lookupName (aupd (aupd g (convertToBox d)) ext, convertToBox d) k = alookup g k := by
  rw [lookupName_exec_locals_none g d ext k hd]
  rw [alookup_aupd_none ext _ k he]
  have h2 : alookup (convertToBox d) k = none := by
    simp only [convertToBox]
    rw [alookup_mapVals convertToBoxSub d k, hd]
    rfl
  rw [alookup_aupd_none _ _ k h2]

/-- C1: if the key set of `data` intersects the engine bindings or the
extensions, `execute` raises the Name-Shadowing error carrying exactly
the colliding keys, independently of the script and of what running it
would do, and with `data` untouched; if both intersections are empty, no
Name-Shadowing error is raised. -/
theorem spec_c1_overwrite_guard (tk : String) (g ext data : Bindings) (script : String) :
    (∀ run : ExecRun, (collisions g ext data).Nonempty →
      executeModel tk g ext data script run
        = (some (shadowWTE tk (collisions g ext data)), data))
    ∧ (∀ run : ExecRun, collisions g ext data = ∅ →
      (∀ gs ls pe, (run gs ls).1 = some pe → shadowX pe = false) →
      shadowO (executeModel tk g ext data script run).1 = false) := by
  constructor
  · intro run h
    have hc : checkForOverwrite tk g ext data
        = some (shadowWTE tk (collisions g ext data)) := by
      unfold checkForOverwrite
      rw [if_pos h]
    simp [executeModel, hc]
  · intro run h hrun
    have hc : checkForOverwrite tk g ext data = none := by
      unfold checkForOverwrite
      rw [if_neg (by rw [h]; exact Finset.not_nonempty_empty)]
    simp only [executeModel, hc]
    rcases hr : run (aupd (aupd g (convertToBox data)) ext) (convertToBox data) with ⟨opt, d2⟩
    cases opt with
    | none => rfl
    | some pe =>
      cases pe with
      | wte w =>
        have h2 := hrun _ _ (.wte w) (by rw [hr])
        exact h2
      | exc cls args frames => rfl

/-- C1 witness: engine bindings contain `Box`, task data binds `Box`:
the guard fires with exactly that key and the script outcome is ignored;
with disjoint data, no shadowing error. -/
theorem spec_c1_overwrite_guard_witness :
    executeModel "t" baseGlobals [] [("Box", .int 1)] "x = 1" (fun _ l => (none, l))
      = (some (shadowWTE "t" (collisions baseGlobals [] [("Box", .int 1)])), [("Box", .int 1)])
    ∧ collisions baseGlobals [] [("Box", .int 1)] = {"Box"}
    ∧ shadowO (executeModel "t" baseGlobals [] [("y", .int 1)] "x = 1" (fun _ l => (none, l))).1
        = false := by
  refine ⟨?_, by decide, ?_⟩
  · exact (spec_c1_overwrite_guard "t" baseGlobals [] [("Box", .int 1)] "x = 1").1 _ (by decide)
  · exact (spec_c1_overwrite_guard "t" baseGlobals [] [("y", .int 1)] "x = 1").2 _ (by decide)
      (fun gs ls pe hpe => Option.noConfusion hpe)

/-- C9: when the overwrite guard fires, `execute` returns with `data`
exactly as it was passed: the guard runs strictly before the in-place
`Box` conversion and before the script. -/
theorem spec_c9_guard_leaves_data_untouched (tk : String) (g ext data : Bindings)
    (script : String) (run : ExecRun) (h : (collisions g ext data).Nonempty) :
    (executeModel tk g ext data script run).2 = data := by
  have hc : checkForOverwrite tk g ext data
      = some (shadowWTE tk (collisions g ext data)) := by
    unfold checkForOverwrite
    rw [if_pos h]
  simp [executeModel, hc]

/-- C9 witness: concrete colliding data comes back exactly as passed,
mapping-valued entry unconverted. -/
theorem spec_c9_guard_leaves_data_untouched_witness :
    (executeModel "t" baseGlobals [] [("Box", .dict [("y", .int 1)])] "x = 1"
      (fun _ l => (none, l))).2 = [("Box", .dict [("y", .int 1)])] :=
  spec_c9_guard_leaves_data_untouched "t" baseGlobals [] _ "x = 1" _ (by decide)

/-- C7: `evaluate` never raises a Name-Shadowing error — any error it
raises is the plain expression-evaluation wrapper — and a task-data
binding that collides with an engine binding simply participates in the
scope (the locals layer wins). -/
theorem spec_c7_no_guard_on_evaluate (tk expr k : String) (g data : Bindings) :
    (∀ run : EvalRun, shadowE (evaluateModel tk g data expr run) = false)
    ∧ ((data.map Prod.fst).Nodup → ∀ v, alookup data k = some v →
        lookupName (evalScope g data []) k = some (boxVal v)) := by
  constructor
  · intro run
    show shadowE (match run (evalScope g data []).1 (evalScope g data []).2 with
      | .ok v => .ok v
      | .error e => .error (evalWrap tk expr e)) = false
    cases run (evalScope g data []).1 (evalScope g data []).2 <;> rfl
  · exact fun hn v h => lookupName_locals_some g data [] k v hn h

/-- C7 witness: with `Box` bound both by the engine and by task data,
evaluation raises no shadowing error and resolves `Box` to the task-data
value. -/
theorem spec_c7_no_guard_on_evaluate_witness :
    shadowE (evaluateModel "t" baseGlobals [("Box", .int 7)] "Box"
        (fun gs ls => match lookupName (gs, ls) "Box" with
          | some v => .ok v
          | none => .error (.exc "NameError" [] []))) = false
    ∧ lookupName (evalScope baseGlobals [("Box", .int 7)] []) "Box"
        = some (boxVal (.int 7)) := by
  constructor
  · exact (spec_c7_no_guard_on_evaluate "t" "Box" "Box" baseGlobals [("Box", .int 7)]).1 _
  · exact (spec_c7_no_guard_on_evaluate "t" "Box" "Box" baseGlobals [("Box", .int 7)]).2
      (by decide) _ rfl

/-- C8: neither `execute` nor `evaluate` mutates the engine-level
bindings — the engine state after either call is exactly the state
before — and a later call's scope resolves no name that is not bound by
the engine or by that call's own data and extensions, so one call's data
or extensions are never visible to a later call. -/
theorem spec_c8_engine_bindings_immutable (e : Engine) (tk tk2 expr script k : String)
    (ext data data2 ext2 : Bindings) (run : ExecRun) (run2 : EvalRun) :
    ((executeEng e tk ext data script run).2 = e)
    ∧ ((evaluateEng e tk2 data2 expr run2).2 = e)
    ∧ (alookup e.globals k = none → alookup data2 k = none →
        lookupName (evalScope e.globals data2 []) k = none)
    ∧ (alookup e.globals k = none → alookup data2 k = none → alookup ext2 k = none →
        lookupName (aupd (aupd e.globals (convertToBox data2)) ext2, convertToBox data2) k
          = none) := by
  refine ⟨rfl, rfl, ?_, ?_⟩
  · intro hg hd
    rw [lookupName_engine e.globals data2 [] k hd rfl]
    exact hg
  · intro hg hd he
    rw [lookupName_exec_engine e.globals data2 ext2 k hd he]
    exact hg

/-- C8 witness: a fresh engine is returned unchanged by a call, and a
name bound only by an earlier call's data resolves to nothing in a later
call's scope. -/
theorem spec_c8_engine_bindings_immutable_witness :
    (executeEng (engineInit []) "t" [] [("secret", .int 5)] "x = 1"
      (fun _ l => (none, l))).2 = engineInit []
    ∧ lookupName (evalScope (engineInit []).globals [("other", .int 6)] []) "secret"
        = none := by
  constructor
  · exact (spec_c8_engine_bindings_immutable (engineInit []) "t" "t" "e" "x = 1" "secret"
      [] [("secret", .int 5)] [("other", .int 6)] [] (fun _ l => (none, l))
      (fun _ _ => .ok (.int 0))).1
  · exact (spec_c8_engine_bindings_immutable (engineInit []) "t" "t" "e" "x = 1" "secret"
      [] [("secret", .int 5)] [("other", .int 6)] [] (fun _ l => (none, l))
      (fun _ _ => .ok (.int 0))).2.2.1 rfl rfl

/-- C2 counterexample: with task data binding `x` to `1` and extensions
binding `x` to `2`, the `_evaluate` scope resolves `x` to the task-data
value `1`, not to the extensions value `2` the claim requires: `eval`
consults the locals mapping (task data) before the merged globals. -/
theorem spec_c2_precedence_counterexample :
    lookupName (evalScope [] [("x", .int 1)] [("x", .int 2)]) "x" = some (.int 1)
    ∧ some (Value.int 1) ≠ some (Value.int 2) := by
  refine ⟨rfl, ?_⟩
  intro h
  injection h with h
  injection h with h
  exact absurd h (by decide)

/-- C2 amended: for both expression evaluation and script execution the
precedence (lowest to highest) is engine bindings, extensions, task
data: the locals mapping — the task data — is consulted first, then the
globals copy, in which extensions were merged after the engine bindings
and the data. -/
theorem spec_c2_precedence_amended (g d ext : Bindings) (k : String) :
    ((d.map Prod.fst).Nodup → ∀ v, alookup d k = some v →
      lookupName (evalScope g d ext) k = some (boxVal v))
    ∧ (alookup d k = none → (ext.map Prod.fst).Nodup → ∀ v, alookup ext k = some v →
      lookupName (evalScope g d ext) k = some v)
    ∧ (alookup d k = none → alookup ext k = none →
      lookupName (evalScope g d ext) k = alookup g k)
    ∧ (∀ v, alookup d k = some v →
      lookupName (aupd (aupd g (convertToBox d)) ext, convertToBox d) k
        = some (convertToBoxSub v))
    ∧ (alookup d k = none → (ext.map Prod.fst).Nodup → ∀ v, alookup ext k = some v →
      lookupName (aupd (aupd g (convertToBox d)) ext, convertToBox d) k = some v)
    ∧ (alookup d k = none → alookup ext k = none →
      lookupName (aupd (aupd g (convertToBox d)) ext, convertToBox d) k = alookup g k) := by
  refine ⟨?_, ?_, ?_, ?_, ?_, ?_⟩
  · exact fun hn v h => lookupName_locals_some g d ext k v hn h
  · exact fun hd hne v h => lookupName_ext_some g d ext k v hd hne h
  · exact fun hd he => lookupName_engine g d ext k hd he
  · exact fun v h => lookupName_exec_data g d ext k v h
  · exact fun hd hne v h => lookupName_exec_ext_some g d ext k v hd hne h
  · exact fun hd he => lookupName_exec_engine g d ext k hd he

/-- C2 amended witness: the three layers observed at concrete inputs —
data beats extensions and engine, extensions beat engine, engine is the
fallback. -/
theorem spec_c2_precedence_amended_witness :
    lookupName (evalScope [("x", .int 0)] [("x", .int 1)] [("x", .int 2)]) "x"
      = some (boxVal (.int 1))
    ∧ lookupName (evalScope [("x", .int 0)] [] [("x", .int 2)]) "x" = some (.int 2)
    ∧ lookupName (evalScope [("x", .int 0)] [] []) "x" = alookup [("x", .int 0)] "x" := by
  refine ⟨?_, ?_, ?_⟩
  · exact (spec_c2_precedence_amended [("x", .int 0)] [("x", .int 1)] [("x", .int 2)] "x").1
      (by decide) _ rfl
  · exact (spec_c2_precedence_amended [("x", .int 0)] [] [("x", .int 2)] "x").2.1
      rfl (by decide) _ rfl
  · exact (spec_c2_precedence_amended [("x", .int 0)] [] [] "x").2.2.1 rfl rfl

/-- C3: when the script run raises a non-classified failure, `execute`
raises the error whose line number and source line come from the last
traceback frame compiled from the script text (`<string>`), defaulting
to line `0` and the empty line when no such frame exists; concretely,
for script `a = 1`, `b = a / 0` and the traceback CPython produces for
the division, the error carries line `2` and the text `b = a / 0`. -/
theorem spec_c3_error_locator :
    (∀ script frames, locate script frames
      = match lastScriptFrame frames with
        | none => (0, "")
        | some f => (f.2, lineAt script f.2))
    ∧ (∀ tk g ext data script cls args frames d2, ∀ run : ExecRun,
      checkForOverwrite tk g ext data = none →
      run (aupd (aupd g (convertToBox data)) ext) (convertToBox data)
        = (some (.exc cls args frames), d2) →
      (executeModel tk g ext data script run).1
        = some ⟨tk, .plain (excDetail cls args),
            (match lastScriptFrame frames with | none => 0 | some f => f.2),
            (match lastScriptFrame frames with | none => "" | some f => lineAt script f.2),
            some cls⟩)
    ∧ executeModel "task1" baseGlobals [] [] "a = 1\nb = a / 0\n"
        (fun _ l => (some (.exc "ZeroDivisionError" ["division by zero"]
          [("/src/SpiffWorkflow/bpmn/PythonScriptEngine.py", 183), ("<string>", 2)]), l))
      = (some ⟨"task1", .plain "ZeroDivisionError:division by zero", 2, "b = a / 0",
          some "ZeroDivisionError"⟩, []) := by
  refine ⟨locate_char, ?_, rfl⟩
  intro tk g ext data script cls args frames d2 run hc hr
  simp only [executeModel, hc, hr]
  show some (execErrWTE tk script cls args frames) = _
  unfold execErrWTE
  rw [locate_char script frames]
  cases lastScriptFrame frames <;> rfl

/-- C3 witness: the general handler applied at the concrete
division-by-zero traceback recovers line `2` and the literal second
script line. -/
theorem spec_c3_error_locator_witness :
    (executeModel "task1" baseGlobals [] [] "a = 1\nb = a / 0\n"
      (fun _ l => (some (.exc "ZeroDivisionError" ["division by zero"]
        [("/src/SpiffWorkflow/bpmn/PythonScriptEngine.py", 183), ("<string>", 2)]), l))).1
    = some ⟨"task1", .plain "ZeroDivisionError:division by zero", 2, "b = a / 0",
        some "ZeroDivisionError"⟩ := by
  have h := spec_c3_error_locator.2.1 "task1" baseGlobals [] [] "a = 1\nb = a / 0\n"
    "ZeroDivisionError" ["division by zero"]
    [("/src/SpiffWorkflow/bpmn/PythonScriptEngine.py", 183), ("<string>", 2)] []
    (fun _ l => (some (.exc "ZeroDivisionError" ["division by zero"]
      [("/src/SpiffWorkflow/bpmn/PythonScriptEngine.py", 183), ("<string>", 2)]), l))
    rfl rfl
  exact h

/-- C5 counterexample: a failure already in the classified shape raised
during expression evaluation is not surfaced unchanged: `evaluate` wraps
it in a fresh expression-evaluation error (the claim extends the
pass-through to the evaluate path, but only `execute` has it). -/
theorem spec_c5_passthrough_counterexample :
    evaluateModel "t" [] [] "x"
      (fun _ _ => .error (.wte ⟨"t", .plain "boom", 3, "ln", none⟩))
      = .error ⟨"t", .plain "Error evaluating expression \x27x\x27, boom", 0, "", none⟩
    ∧ (⟨"t", .plain "Error evaluating expression \x27x\x27, boom", 0, "", none⟩ : WTE)
        ≠ ⟨"t", .plain "boom", 3, "ln", none⟩ := by
  refine ⟨rfl, ?_⟩
  intro h
  exact absurd (congrArg WTE.lineNumber h) (by decide)

/-- C5 amended: `execute` re-raises an already-classified failure as the
very same error value, while `evaluate` wraps every failure — classified
or not — in a fresh expression-evaluation wrapper. -/
theorem spec_c5_passthrough_amended (tk script expr : String)
    (g ext data d0 : Bindings) (w : WTE) (e : PyExc) (d2 : Bindings) :
    (∀ run : ExecRun,
      checkForOverwrite tk g ext data = none →
      run (aupd (aupd g (convertToBox data)) ext) (convertToBox data)
        = (some (.wte w), d2) →
      executeModel tk g ext data script run = (some w, d2))
    ∧ (∀ run2 : EvalRun,
      run2 (evalScope g d0 []).1 (evalScope g d0 []).2 = .error e →
      evaluateModel tk g d0 expr run2 = .error (evalWrap tk expr e)) := by
  constructor
  · intro run hc hr
    simp only [executeModel, hc, hr]
  · intro run2 hr
    simp only [evaluateModel, hr]

/-- C5 amended witness: a classified error raised by the script run is
returned by `execute` as the identical value, and the same error raised
under `evaluate` comes back wrapped. -/
theorem spec_c5_passthrough_amended_witness :
    executeModel "t" baseGlobals [] [] "x = f()"
      (fun _ l => (some (.wte ⟨"t", .plain "boom", 3, "ln", none⟩), l))
      = (some ⟨"t", .plain "boom", 3, "ln", none⟩, [])
    ∧ evaluateModel "t" baseGlobals [] "f()"
      (fun _ _ => .error (.wte ⟨"t", .plain "boom", 3, "ln", none⟩))
      = .error (evalWrap "t" "f()" (.wte ⟨"t", .plain "boom", 3, "ln", none⟩)) := by
  constructor
  · exact (spec_c5_passthrough_amended "t" "x = f()" "f()" baseGlobals [] [] []
      ⟨"t", .plain "boom", 3, "ln", none⟩
      (.wte ⟨"t", .plain "boom", 3, "ln", none⟩) []).1 _ rfl rfl
  · exact (spec_c5_passthrough_amended "t" "x = f()" "f()" baseGlobals [] [] []
      ⟨"t", .plain "boom", 3, "ln", none⟩
      (.wte ⟨"t", .plain "boom", 3, "ln", none⟩) []).2 _ rfl

/-- C6 counterexample: `convertToBoxSub` applied to a value that is
already a `Box` is not a no-op when the `Box` holds a plain-mapping
entry (as `Box.__setitem__` can store, since it never wraps): the entry
is converted, so the result differs from the input. -/
theorem spec_c6_wrap_idem_counterexample :
    convertToBoxSub (Value.box [("x", .dict [("y", .int 1)])] [("x", .dict [("y", .int 1)])])
      ≠ Value.box [("x", .dict [("y", .int 1)])] [("x", .dict [("y", .int 1)])] := by
  intro h
  have h2 : Value.box [("x", .box [("y", .int 1)] [("y", .int 1)])]
        [("x", .box [("y", .int 1)] [("y", .int 1)])]
      = Value.box [("x", .dict [("y", .int 1)])] [("x", .dict [("y", .int 1)])] := h
  simp at h2

/-- C6 amended: in `_evaluate`'s scope build a value that is already a
`Box` is skipped unchanged (a true no-op), and `convertToBoxSub` is
idempotent as a function — its image is a fixed point — but applying it
to a `Box` that still contains a plain-mapping entry does convert that
entry, so on such a `Box` the conversion is not a no-op. -/
theorem spec_c6_wrap_idem_amended :
    (∀ s a, boxVal (.box s a) = .box s a)
    ∧ (∀ v, nodupDeepV v = true →
        convertToBoxSub (convertToBoxSub v) = convertToBoxSub v) :=
  ⟨fun _ _ => rfl, fun v hn => (convert_idem_aux v hn).1⟩

/-- C6 amended witness: idempotency observed at a concrete nested
mapping. -/
theorem spec_c6_wrap_idem_amended_witness :
    convertToBoxSub (convertToBoxSub (.dict [("x", .dict [("y", .int 1)])]))
      = convertToBoxSub (.dict [("x", .dict [("y", .int 1)])]) :=
  spec_c6_wrap_idem_amended.2 (.dict [("x", .dict [("y", .int 1)])]) (by decide)

/-- C10 counterexample: a mapping inside a list is not converted when
the list sits under a mapping value: after `convertToBox` on
`k ↦ (d ↦ [mapping])`, the element of the list at `d` is still a plain
mapping, not a `Box` — `convertToBoxSub` recurses into `dict` values of
mappings but never into their list values. -/
theorem spec_c10_list_conversion_counterexample :
    (alookup (convertToBox [("k", .dict [("d", .list [.dict [("a", .int 1)]])])]) "k").bind
        (fun b => getItem b "d")
      = some (.list [.dict [("a", .int 1)]])
    ∧ isBoxV (.dict [("a", .int 1)]) = false :=
  ⟨rfl, rfl⟩

/-- C10 amended: `convertToBoxSub` maps lists element-wise (so it does
recurse through lists, including lists nested in lists, preserving
positions), and every mapping reached from a converted value through a
chain of list indexings alone becomes a `Box`; `convertToBox` applies
this to every top-level value of `data`.  (Lists stored as mapping
values are not recursed into, as the counterexample shows.) -/
theorem spec_c10_list_conversion_amended :
    (∀ l, convertToBoxSub (.list l) = .list (l.map convertToBoxSub))
    ∧ (∀ p v es, descendL p v = some (.dict es) →
        ∃ s a, descendL p (convertToBoxSub v) = some (.box s a))
    ∧ (∀ data k v, alookup data k = some v →
        alookup (convertToBox data) k = some (convertToBoxSub v)) := by
  refine ⟨?_, ?_, ?_⟩
  · intro l
    show Value.list (convL l) = _
    rw [convL_eq_map]
  · intro p
    induction p with
    | nil =>
      intro v es h
      injection h with h
      subst h
      obtain ⟨s, a, hs⟩ := boxInit_shape (convE es)
      refine ⟨s, a, ?_⟩
      rw [show convertToBoxSub (.dict es) = boxInit (convE es) from rfl, hs]
      rfl
    | cons i p ih =>
      intro v es h
      cases v with
      | list l =>
        simp only [descendL] at h
        cases hgi : l[i]? with
        | none => rw [hgi] at h; exact absurd h (by simp)
        | some w =>
          rw [hgi] at h
          obtain ⟨s, a, hsa⟩ := ih w es h
          refine ⟨s, a, ?_⟩
          show descendL (i :: p) (.list (convL l)) = _
          rw [convL_eq_map]
          simp only [descendL, List.getElem?_map, hgi, Option.map_some']
          exact hsa
      | int n => exact absurd h (by simp [descendL])
      | str s => exact absurd h (by simp [descendL])
      | builtin s => exact absurd h (by simp [descendL])
      | dict es2 => exact absurd h (by simp [descendL])
      | box s2 a2 => exact absurd h (by simp [descendL])
  · intro data k v h
    show alookup (data.map (fun p => (p.1, convertToBoxSub p.2))) k = _
    rw [alookup_mapVals convertToBoxSub data k, h]
    rfl

/-- C10 amended witness: a mapping two list levels below a top-level
list value becomes a `Box`. -/
theorem spec_c10_list_conversion_amended_witness :
    (descendL [0, 0] (convertToBoxSub (.list [.list [.dict [("a", .int 1)]]]))).map isBoxV
      = some true := by
  obtain ⟨s, a, hs⟩ := spec_c10_list_conversion_amended.2.1 [0, 0]
    (.list [.list [.dict [("a", .int 1)]]]) [("a", .int 1)] rfl
  rw [hs]
  rfl

/-- C4: wrapping a consistent mapping yields a `Box` whose key-style and
field-style access agree on every key — recursively, since every nested
value of a wrapped mapping is again consistent — and set and delete
through either style are the very same operation (`__setattr__` and
`__delattr__` delegate to `__setitem__` and `__delitem__`), which keeps
the two stores equal, so the two views never diverge. -/
theorem spec_c4_box_dual_access :
    (∀ es, nodupDeepV (.dict es) = true → Synced (.dict es) → Synced (boxIfDict (.dict es)))
    ∧ (∀ s a k, Synced (.box s a) → getItem (.box s a) k = getField (.box s a) k)
    ∧ (∀ s a p, Synced (.box s a) → p ∈ s → Synced (Prod.snd p))
    ∧ (∀ b k v, setAttr b k v = setItem b k v)
    ∧ (∀ b k, delAttr b k = delItem b k)
    ∧ (∀ s a k v, Synced (.box s a) → Synced v → Synced (setItem (.box s a) k v))
    ∧ (∀ s a k, Synced (.box s a) → Synced (delItem (.box s a) k)) := by
  refine ⟨fun es hn hs => synced_boxIfDict _ hn hs, ?_, ?_,
    fun b k v => rfl, fun b k => rfl, ?_, ?_⟩
  · intro s a k hs
    have ha := (synced_box_elim s a hs).1
    rw [ha]
    show alookup s k = (alookup s k).orElse (fun _ => alookup s k)
    cases alookup s k <;> rfl
  · intro s a p hs hp
    exact (synced_box_elim s a hs).2 p hp
  · intro s a k v hs hv
    have ha := (synced_box_elim s a hs).1
    rw [ha]
    show Synced (.box (aset s k v) (aset s k v))
    refine Synced.box _ ?_
    intro p hp
    rcases mem_aset s k v p hp with h1 | h1
    · rw [h1]
      exact hv
    · exact (synced_box_elim s a hs).2 p h1
  · intro s a k hs
    have ha := (synced_box_elim s a hs).1
    rw [ha]
    show Synced (.box (adel s k) (adel s k))
    refine Synced.box _ ?_
    intro p hp
    exact (synced_box_elim s a hs).2 p (mem_adel s k p hp)

/-- C4 witness: dual access agrees on a concrete wrapped mapping, and
wrapping a concrete nested mapping yields a consistent `Box`. -/
theorem spec_c4_box_dual_access_witness :
    getItem (.box [("x", .int 1)] [("x", .int 1)]) "x"
      = getField (.box [("x", .int 1)] [("x", .int 1)]) "x"
    ∧ Synced (boxIfDict (.dict [("x", .dict [("y", .int 2)])])) := by
  constructor
  · refine spec_c4_box_dual_access.2.1 _ _ "x" (Synced.box _ ?_)
    intro p hp
    simp at hp
    subst hp
    exact Synced.int 1
  · refine spec_c4_box_dual_access.1 _ (by decide) (Synced.dict _ ?_)
    intro p hp
    simp at hp
    subst hp
    refine Synced.dict _ ?_
    intro q hq
    simp at hq
    subst hq
    exact Synced.int 2
